import Mathlib

/-!
Verification development for the RAG FAQ support bot
(`src/services/rag_service.py`, `src/routes/api.py`, `src/config.py`).

Text is modelled as `List Char` (Python strings are character sequences).
External services (Qdrant, the embedding provider, the LLM) are modelled by
their observable effects: the vector index is a list of points, retrieval and
collection listing are environment inputs, exceptions are `Option`/`Except`
values.  The text splitter is `RecursiveCharacterTextSplitter` from
`langchain_text_splitters`, embedded faithfully below with its default
`keep_separator=True`, `strip_whitespace=True`, `is_separator_regex=False`,
`length_function=len`, as instantiated in `RAGService.__init__` with
`chunk_size=1000`, `chunk_overlap=200`, separators `["\n\n", "\n", " ", ""]`.
-/

/-- Text is modelled as a list of characters, mirroring Python strings. -/
abbrev Txt := List Char

/-- Python `str.strip()`: drop leading and trailing whitespace. -/
def pyStrip (l : Txt) : Txt :=
  ((l.dropWhile Char.isWhitespace).reverse.dropWhile Char.isWhitespace).reverse

/-- Python `sep.join(docs)`. -/
def joinSep (sep : Txt) : List Txt → Txt
  | [] => []
  | [d] => d
  | d :: e :: rest => d ++ sep ++ joinSep sep (e :: rest)

/-- Length of `docs` joined with a separator of length `sepLen`: the running
`total` that `TextSplitter._merge_splits` maintains. -/
def weighted (sepLen : Nat) : List Txt → Nat
  | [] => 0
  | [d] => d.length
  | d :: e :: rest => d.length + sepLen + weighted sepLen (e :: rest)

/-- `TextSplitter._join_docs` with `strip_whitespace=True`: join, strip, and
return `none` for an empty result. -/
def join_docs (sep : Txt) (docs : List Txt) : Option Txt :=
  if pyStrip (joinSep sep docs) = [] then none else some (pyStrip (joinSep sep docs))

/-- The inner `while` loop of `TextSplitter._merge_splits`: pop leading splits
from the current window while the running total exceeds the overlap budget `co`
or would make the next chunk exceed `cs`. -/
def popWhile (sepLen co cs lenD : Nat) : List Txt → Nat → List Txt × Nat
  | [], total => ([], total)
  | d :: rest, total =>
      if total > co ∨ (total + lenD + sepLen > cs ∧ total > 0) then
        popWhile sepLen co cs lenD rest (total - (d.length + if rest.isEmpty then 0 else sepLen))
      else (d :: rest, total)

/-- One iteration of the `for d in splits` loop of `_merge_splits`, before the
final `current_doc.append(d)`: possibly emit the current window as a chunk and
pop it down to the overlap budget. -/
def mergeStep (sep : Txt) (cs co : Nat) (d : Txt) (cur : List Txt) (total : Nat) :
    List Txt × List Txt × Nat :=
  if total + d.length + (if cur.isEmpty then 0 else sep.length) > cs then
    if cur.isEmpty then ([], cur, total)
    else ((join_docs sep cur).toList, (popWhile sep.length co cs d.length cur total).1,
      (popWhile sep.length co cs d.length cur total).2)
  else ([], cur, total)

/-- The `for` loop of `TextSplitter._merge_splits` over the remaining splits,
carrying the current window `cur` and its running length `total`. -/
def mergeLoop (sep : Txt) (cs co : Nat) : List Txt → List Txt → Nat → List Txt
  | [], cur, _ => (join_docs sep cur).toList
  | d :: ds, cur, total =>
      (mergeStep sep cs co d cur total).1 ++
        mergeLoop sep cs co ds ((mergeStep sep cs co d cur total).2.1 ++ [d])
          ((mergeStep sep cs co d cur total).2.2 + d.length +
            (if ((mergeStep sep cs co d cur total).2.1 ++ [d]).length > 1 then sep.length else 0))

/-- `TextSplitter._merge_splits`. -/
def merge_splits (sep : Txt) (cs co : Nat) (splits : List Txt) : List Txt :=
  mergeLoop sep cs co splits [] 0

/-- Python `re.search(re.escape(needle), hay)` as a boolean: does `needle`
occur contiguously inside `hay`? -/
def occursIn (needle hay : Txt) : Bool :=
  (List.range (hay.length + 1)).any (fun i => needle.isPrefixOf (hay.drop i))

/-- Separator selection at the top of `RecursiveCharacterTextSplitter._split_text`:
the first separator in the priority list that is `""` or occurs in the text is
chosen, together with the remaining separators; the last separator is the
fallback. -/
def chooseSep (text : Txt) : List Txt → Txt × List Txt
  | [] => ([], [])
  | s :: rest =>
      if s = [] then ([], [])
      else if occursIn s text then (s, rest)
      else
        match rest with
        | [] => (s, [])
        | e :: rest2 => chooseSep text (e :: rest2)

/-- Python `re.split` on an escaped (literal) separator: the list of pieces
between non-overlapping leftmost occurrences of `sep`. -/
def splitOnSepAux (sep : Txt) : Txt → Txt → List Txt
  | [], acc => [acc.reverse]
  | c :: rest, acc =>
      if sep.isPrefixOf (c :: rest) then
        acc.reverse :: splitOnSepAux sep (rest.drop (sep.length - 1)) []
      else
        splitOnSepAux sep rest (c :: acc)
termination_by t _ => t.length
decreasing_by
  · simp only [List.length_cons, List.length_drop]; omega
  · simp only [List.length_cons]; omega

/-- `_split_text_with_regex` specialised to a literal separator and
`keep_separator=True` (the `RecursiveCharacterTextSplitter` default): every
piece after the first gets the separator re-attached at its start; empty pieces
are dropped.  An empty separator yields the list of single characters. -/
def splitWithSep (text sep : Txt) : List Txt :=
  if sep = [] then (text.map (fun c => [c])).filter (fun s => !s.isEmpty)
  else
    match splitOnSepAux sep text [] with
    | [] => []
    | t0 :: ts => (t0 :: ts.map (fun t => sep ++ t)).filter (fun s => !s.isEmpty)

/-- The accumulation of `final_chunks` in `_split_text`: runs of good splits are
merged via `_merge_splits` (with the empty join separator, since
`keep_separator=True`), and expansions of over-long splits are spliced in
between, resetting the good-split accumulator. -/
def assembleChunks (sep : Txt) (cs co : Nat) : List (Txt ⊕ List Txt) → List Txt → List Txt
  | [], good => if good.isEmpty then [] else merge_splits sep cs co good
  | Sum.inl s :: rest, good => assembleChunks sep cs co rest (good ++ [s])
  | Sum.inr cks :: rest, good =>
      (if good.isEmpty then [] else merge_splits sep cs co good) ++ cks ++
        assembleChunks sep cs co rest []

/-- `RecursiveCharacterTextSplitter._split_text`.  The recursion always passes
the strict suffix `new_separators`, so a fuel of `separators.length` (supplied
by `split_text` below) is never exhausted. -/
def splitTextFuel (cs co : Nat) : Nat → Txt → List Txt → List Txt
  | 0, text, _ => [text]
  | fuel + 1, text, seps =>
      assembleChunks [] cs co
        ((splitWithSep text (chooseSep text seps).1).map (fun s =>
          if s.length < cs then Sum.inl s
          else Sum.inr (if (chooseSep text seps).2.isEmpty then [s]
            else splitTextFuel cs co fuel s (chooseSep text seps).2))) []

/-- `RecursiveCharacterTextSplitter.split_text`. -/
def split_text (cs co : Nat) (seps : List Txt) (text : Txt) : List Txt :=
  splitTextFuel cs co seps.length text seps

/-- The separator priority list passed in `RAGService.__init__`:
paragraph boundary, line boundary, space, any character. -/
def ragSeparators : List Txt := [['\n', '\n'], ['\n'], [' '], []]

/-- The text splitter as instantiated in `RAGService.__init__`:
`chunk_size=1000`, `chunk_overlap=200`. -/
def ragSplitText (text : Txt) : List Txt := split_text 1000 200 ragSeparators text

/-- `os.path.basename`: the part of the path after the last slash (empty when
the path ends in a slash). -/
def basename (p : String) : String :=
  String.mk ((p.toList.reverse.takeWhile (fun c => c != '/')).reverse)

/-- A loaded raw document as an external loader returns it: page content plus
the `source` and `page` metadata keys (absent keys are `none`). -/
structure RawDoc where
  page_content : Txt
  source : Option String
  page : Option Nat
  deriving DecidableEq

/-- A document after the metadata stamping of `load_and_index_documents`. -/
structure StampedDoc where
  page_content : Txt
  source : String
  filename : String
  page : Option Nat
  deriving DecidableEq

/-- Python `file_path or 'unknown'` for `file_path : Option String`. -/
def orUnknown (filePath : Option String) : String :=
  match filePath with
  | some p => if p = "" then "unknown" else p
  | none => "unknown"

/-- The `source` metadata value after stamping: a missing `source` key is
filled with `file_path or 'unknown'` (the `dict.get` default); a present value
(even the empty string) is kept. -/
def stampSource (filePath : Option String) (src : Option String) : String :=
  match src with
  | none => orUnknown filePath
  | some s => s

/-- Metadata stamping in `load_and_index_documents` (rag_service.py 117-121):
`filename` becomes the basename of the (possibly defaulted) source. -/
def stampDoc (filePath : Option String) (d : RawDoc) : StampedDoc :=
  ⟨d.page_content, stampSource filePath d.source,
   basename (stampSource filePath d.source), d.page⟩

/-- `text_splitter.split_documents`: split every document's text with the
configured splitter and copy its metadata onto each chunk. -/
def splitStampedDocs (docs : List StampedDoc) : List StampedDoc :=
  (docs.map (fun d => (ragSplitText d.page_content).map
    (fun c => { d with page_content := c }))).flatten

/-- A point stored in the Qdrant collection: embedded chunk text plus its
metadata payload. -/
structure VPoint where
  filename : String
  source : String
  page : Option Nat
  content : Txt
  deriving DecidableEq

/-- `vector_store.add_documents` stores each chunk as one point. -/
def chunkToPoint (d : StampedDoc) : VPoint := ⟨d.filename, d.source, d.page, d.page_content⟩

/-- `qdrant_client.delete` with a `must`-filter on `metadata.filename`:
every point carrying that filename is removed. -/
def deleteByFilename (idx : List VPoint) (fn : String) : List VPoint :=
  idx.filter (fun p => p.filename != fn)

/-- First-occurrence de-duplication of a list of strings (order preserving). -/
def dedupFirstAux : List String → List String → List String
  | [], _ => []
  | x :: xs, seen =>
      if x ∈ seen then dedupFirstAux xs seen else x :: dedupFirstAux xs (x :: seen)

/-- First-occurrence de-duplication, starting from no seen names. -/
def dedupFirst (l : List String) : List String := dedupFirstAux l []

/-- An observable operation issued against the vector index. -/
inductive IndexOp where
  | deletePoints (filename : String)
  | addPoints (pts : List VPoint)
  deriving DecidableEq

/-- Result of `load_and_index_documents`: the new index contents, the trace of
index operations issued, and the returned counts. -/
structure IndexOutcome where
  index : List VPoint
  ops : List IndexOp
  raw_count : Nat
  chunk_count : Nat
  files : List String
  deriving DecidableEq

/-- `RAGService.load_and_index_documents` on an index state `idx`, for the
happy path in which the vector-store insertion succeeds.  `raw` is what the
external loader returned for the requested path/directory.  When a single
`file_path` is given and at least one chunk was produced, existing points for
`basename file_path` are deleted before the new points are inserted; the
directory variant (`filePath = none`) only inserts; when no chunks were
produced, no index operation is issued at all
(`if self.vector_store and documents:`). -/
def indexedChunks (filePath : Option String) (raw : List RawDoc) : List StampedDoc :=
  splitStampedDocs (raw.map (stampDoc filePath))

/-- The points that `vector_store.add_documents` would insert. -/
def indexedPoints (filePath : Option String) (raw : List RawDoc) : List VPoint :=
  (indexedChunks filePath raw).map chunkToPoint

def load_and_index_documents (idx : List VPoint) (filePath : Option String)
    (raw : List RawDoc) : IndexOutcome :=
  if (indexedChunks filePath raw).isEmpty then
    ⟨idx, [], raw.length, (indexedChunks filePath raw).length,
     dedupFirst ((indexedChunks filePath raw).map (·.filename))⟩
  else
    match filePath with
    | some p =>
        ⟨deleteByFilename idx (basename p) ++ indexedPoints filePath raw,
         [IndexOp.deletePoints (basename p), IndexOp.addPoints (indexedPoints filePath raw)],
         raw.length, (indexedChunks filePath raw).length,
         dedupFirst ((indexedChunks filePath raw).map (·.filename))⟩
    | none =>
        ⟨idx ++ indexedPoints filePath raw, [IndexOp.addPoints (indexedPoints filePath raw)],
         raw.length, (indexedChunks filePath raw).length,
         dedupFirst ((indexedChunks filePath raw).map (·.filename))⟩

/-- A chunk as returned by the retriever: page content plus the metadata keys
`source`, `filename`, `page` (absent keys are `none`). -/
structure RetrievedDoc where
  page_content : Txt
  source : Option String
  filename : Option String
  page : Option Nat
  deriving DecidableEq

/-- One entry of the reference list returned by `RAGService.query`. -/
structure Reference where
  id : String
  filename : String
  source : String
  page : Nat
  preview : Txt
  deriving DecidableEq

/-- The preview field: `doc.page_content[:200] + "..." if len(...) > 200 else
doc.page_content`. -/
def mkPreview (content : Txt) : Txt :=
  if content.length > 200 then content.take 200 ++ ['.', '.', '.'] else content

/-- `source = doc.metadata.get('source', 'unknown')` in the reference loop. -/
def effSource (d : RetrievedDoc) : String := d.source.getD "unknown"

/-- `filename = doc.metadata.get('filename', os.path.basename(source))`:
the reference identifier. -/
def effFilename (d : RetrievedDoc) : String := d.filename.getD (basename (effSource d))

/-- The reference built from one retrieved chunk (rag_service.py 266-282). -/
def refOfDoc (d : RetrievedDoc) : Reference :=
  ⟨effFilename d, effFilename d, effSource d, d.page.getD 0, mkPreview d.page_content⟩

/-- The reference-building loop of `RAGService.query`: iterate retrieved chunks
in retrieval order, keeping only the first chunk per distinct filename. -/
def buildRefsAux : List RetrievedDoc → List String → List Reference
  | [], _ => []
  | d :: ds, seen =>
      if effFilename d ∈ seen then buildRefsAux ds seen
      else refOfDoc d :: buildRefsAux ds (effFilename d :: seen)

/-- The reference list of a query response. -/
def buildReferences (docs : List RetrievedDoc) : List Reference := buildRefsAux docs []

/-- `settings.collection_name` default. -/
def collection_name : String := "my_knowledge_base"

/-- The fixed answer returned when the collection does not exist. -/
def noDocsAnswer : String :=
  "No documents have been indexed yet. Please upload and index some documents first."

/-- The fixed answer returned when the similarity search found nothing. -/
def noRelevantAnswer : String :=
  "I couldn\x27t find any relevant information in the documents to answer your question."

/-- Python `needle in hay` for strings. -/
def strContains (hay needle : String) : Bool := occursIn needle.toList hay.toList

/-- Python `str.lower()`. -/
def pyLower (s : String) : String := String.mk (s.toList.map Char.toLower)

/-- The retrieval-error test of `RAGService.query`:
`"doesn't exist" in str(e) or "not found" in str(e).lower()`. -/
def errIndicatesMissing (msg : String) : Bool :=
  strContains msg "doesn\x27t exist" || strContains (pyLower msg) "not found"

/-- Outcome of the similarity search (`retriever.invoke`): either the retrieved
chunks or a raised exception with its message. -/
inductive SearchOutcome where
  | ok (docs : List RetrievedDoc)
  | err (msg : String)
  deriving DecidableEq

/-- The environment a single `query` call observes: what `get_collections`
returns (`none` when it throws), the search outcome, and the LLM answer. -/
structure QueryEnv where
  collections : Option (List String)
  search : SearchOutcome
  llmAnswer : String
  deriving DecidableEq

/-- The response dictionary of `RAGService.query`. -/
structure QueryResult where
  answer : String
  references : List Reference
  context_used : Nat
  deriving DecidableEq

/-- The retrieval-and-answer part of `RAGService.query` (after the collection
existence check): a raised exception whose message does not indicate a missing
collection propagates as `Except.error`. -/
def queryRetrieve (env : QueryEnv) : Except String QueryResult :=
  match env.search with
  | SearchOutcome.err msg =>
      if errIndicatesMissing msg then Except.ok ⟨noDocsAnswer, [], 0⟩
      else Except.error msg
  | SearchOutcome.ok docs =>
      if docs.isEmpty then Except.ok ⟨noRelevantAnswer, [], 0⟩
      else Except.ok ⟨env.llmAnswer, buildReferences docs, docs.length⟩

/-- `RAGService.query` for a question and neighbour count `k`; the question and
`k` only flow into the external retrieval, whose outcome is in `env`. -/
def rag_query (_question : String) (_k : Nat) (env : QueryEnv) : Except String QueryResult :=
  match env.collections with
  | some names =>
      if collection_name ∈ names then queryRetrieve env
      else Except.ok ⟨noDocsAnswer, [], 0⟩
  | none => queryRetrieve env

/-- The persistent state the HTTP routes act on: the documents directory and
the vector index. -/
structure SysState where
  disk : List (String × Txt)
  index : List VPoint
  deriving DecidableEq

/-- `settings.documents_dir` default. -/
def documents_dir : String := "src/documents"

/-- Saving the uploaded file (`open(file_path, "wb")`): overwrites an existing
entry of the same name, otherwise appends. -/
def writeFile (disk : List (String × Txt)) (fname : String) (content : Txt) :
    List (String × Txt) :=
  if disk.any (fun e => e.1 == fname) then
    disk.map (fun e => if e.1 == fname then (fname, content) else e)
  else disk ++ [(fname, content)]

/-- Result of the upload route: the cap rejection or acceptance with the chunk
count reported back. -/
inductive UploadOutcome where
  | rejected
  | accepted (chunks : Nat)
  deriving DecidableEq

/-- `RAGService.get_document_list`: the files physically present in the
documents directory. -/
def get_document_list (st : SysState) : List (String × Txt) := st.disk

/-- `upload_file` in `src/routes/api.py`: reject when 20 or more documents are
already stored (before writing anything); otherwise write the file (overwrite)
and index it.  `loaded` is what the external loader returns for the saved
file. -/
def upload_file (st : SysState) (fname : String) (content : Txt)
    (loaded : List RawDoc) : SysState × UploadOutcome :=
  if (get_document_list st).length ≥ 20 then (st, UploadOutcome.rejected)
  else
    (⟨writeFile st.disk fname content,
      (load_and_index_documents st.index (some (documents_dir ++ "/" ++ fname)) loaded).index⟩,
     UploadOutcome.accepted
       (load_and_index_documents st.index (some (documents_dir ++ "/" ++ fname)) loaded).chunk_count)

/-- `RAGService.delete_document`: remove the file from disk when present
(absence tolerated), then issue the filtered vector delete;
`vectorDeleteOk = false` models that delete call throwing, in which case the
index is untouched and `False` is returned. -/
def delete_document (st : SysState) (vectorDeleteOk : Bool) (fname : String) :
    SysState × Bool :=
  if vectorDeleteOk then
    (⟨st.disk.filter (fun e => e.1 != fname), deleteByFilename st.index fname⟩, true)
  else
    (⟨st.disk.filter (fun e => e.1 != fname), st.index⟩, false)

/-- Dimension selection in `RAGService._initialize_vector_store` (63-70):
the length of the test embedding when `embed_query("test")` succeeds, the
hardcoded fallback `768` when it throws. -/
def initEmbeddingDim (embedResult : Option (List Int)) : Nat :=
  match embedResult with
  | some v => v.length
  | none => 768

/-- Environment of one `_initialize_vector_store` call: the collection listing
(`none` when `get_collections` throws), the test-embedding outcome, and the
error message of `create_collection` when it throws. -/
structure InitEnv where
  collections : Option (List String)
  embed : Option (List Int)
  createErr : Option String
  deriving DecidableEq

/-- What the collection bootstrap in `_initialize_vector_store` did. -/
inductive InitAction where
  | created (dim : Nat)
  | skipped
  | swallowed
  deriving DecidableEq

/-- The collection bootstrap of `_initialize_vector_store` (55-83): a missing
collection is created with `initEmbeddingDim`; every exception in the outer
`try` is swallowed (`pass`), including creation failures. -/
def initialize_vector_store (env : InitEnv) : InitAction :=
  match env.collections with
  | none => InitAction.swallowed
  | some names =>
      if collection_name ∈ names then InitAction.skipped
      else
        match env.createErr with
        | none => InitAction.created (initEmbeddingDim env.embed)
        | some _ => InitAction.swallowed

/-- The collection-recovery path of `load_and_index_documents` (152-176):
embed a test string (failure propagates, no fallback), create the collection,
and treat a creation failure as success exactly when its message contains
"already exists" or "duplicate" (lower-cased); the chosen dimension is
returned. -/
def recoveryCreateDim (embed : Except String (List Int)) (createErr : Option String) :
    Except String Nat :=
  match embed with
  | Except.error e => Except.error e
  | Except.ok v =>
      match createErr with
      | none => Except.ok v.length
      | some msg =>
          if strContains (pyLower msg) "already exists" || strContains (pyLower msg) "duplicate"
          then Except.ok v.length
          else Except.error msg

/-!
Helper lemmas about the splitter.
-/

theorem weighted_cons (k : Nat) (d : Txt) (rest : List Txt) :
    weighted k (d :: rest) = d.length + (if rest.isEmpty then 0 else k + weighted k rest) := by
  cases rest with
  | nil => simp [weighted]
  | cons e r => simp [weighted, Nat.add_assoc]

theorem weighted_append_single (k : Nat) (l : List Txt) (d : Txt) :
    weighted k (l ++ [d]) = weighted k l + (if l.isEmpty then 0 else k) + d.length := by
  induction l with
  | nil => simp [weighted]
  | cons c rest ih =>
      rw [List.cons_append, weighted_cons, weighted_cons]
      cases hr : rest with
      | nil => simp [weighted]; omega
      | cons e r =>
          rw [hr] at ih
          simp only [List.isEmpty_cons, List.cons_append, List.append_eq] at ih ⊢
          have : ((e :: r) ++ [d]).isEmpty = false := by simp
          rw [List.cons_append] at this
          simp only [this, List.isEmpty_cons, if_false, Bool.false_eq_true] at *
          omega

theorem eq_nil_of_weighted_eq_zero (k : Nat) (l : List Txt)
    (h : ∀ c ∈ l, c ≠ []) (hz : weighted k l = 0) : l = [] := by
  cases l with
  | nil => rfl
  | cons c rest =>
      exfalso
      have hc : 0 < c.length := List.length_pos.mpr (h c (by simp))
      rw [weighted_cons] at hz
      split at hz <;> omega

theorem joinSep_length (sep : Txt) (l : List Txt) :
    (joinSep sep l).length = weighted sep.length l := by
  induction l with
  | nil => simp [joinSep, weighted]
  | cons c rest ih =>
      cases rest with
      | nil => simp [joinSep, weighted]
      | cons e r =>
          simp only [joinSep, weighted, List.length_append] at ih ⊢
          omega

theorem pyStrip_length_le (l : Txt) : (pyStrip l).length ≤ l.length := by
  have h1 : ((l.dropWhile Char.isWhitespace)).length ≤ l.length :=
    (List.dropWhile_sublist _).length_le
  have h2 : (((l.dropWhile Char.isWhitespace).reverse.dropWhile Char.isWhitespace)).length ≤
      (l.dropWhile Char.isWhitespace).reverse.length :=
    (List.dropWhile_sublist _).length_le
  unfold pyStrip
  simp only [List.length_reverse] at *
  omega

theorem join_docs_length_le (sep : Txt) (cur : List Txt) (t : Txt)
    (ht : join_docs sep cur = some t) : t.length ≤ weighted sep.length cur := by
  unfold join_docs at ht
  split at ht
  · exact absurd ht (by simp)
  · have := Option.some.inj ht
    subst this
    calc (pyStrip (joinSep sep cur)).length ≤ (joinSep sep cur).length := pyStrip_length_le _
      _ = weighted sep.length cur := joinSep_length _ _

theorem popWhile_spec (sepLen co cs lenD : Nat) (cur : List Txt) (total : Nat)
    (hw : total = weighted sepLen cur) (hne : ∀ c ∈ cur, c ≠ []) :
    (popWhile sepLen co cs lenD cur total).2 =
      weighted sepLen (popWhile sepLen co cs lenD cur total).1 ∧
    (∀ c ∈ (popWhile sepLen co cs lenD cur total).1, c ∈ cur) ∧
    (popWhile sepLen co cs lenD cur total).2 ≤ co ∧
    ((popWhile sepLen co cs lenD cur total).2 = 0 ∨
      (popWhile sepLen co cs lenD cur total).2 + lenD + sepLen ≤ cs) := by
  induction cur generalizing total with
  | nil =>
      have hz : total = 0 := by simpa [weighted] using hw
      subst hz
      refine ⟨by simp [popWhile, weighted], ?_, by simp [popWhile], Or.inl (by simp [popWhile])⟩
      intro c hc
      simp [popWhile] at hc
  | cons d rest ih =>
      by_cases hcond : total > co ∨ (total + lenD + sepLen > cs ∧ total > 0)
      · have hstep : popWhile sepLen co cs lenD (d :: rest) total =
            popWhile sepLen co cs lenD rest
              (total - (d.length + if rest.isEmpty then 0 else sepLen)) := by
          simp only [popWhile, if_pos hcond]
        have hw' : total - (d.length + if rest.isEmpty then 0 else sepLen) =
            weighted sepLen rest := by
          subst hw
          cases rest with
          | nil => simp [weighted]
          | cons e r => simp only [weighted, List.isEmpty_cons, if_false, Bool.false_eq_true]; omega
        have hne' : ∀ c ∈ rest, c ≠ [] := fun c hc => hne c (List.mem_cons_of_mem _ hc)
        have hres := ih _ hw' hne'
        rw [hstep]
        exact ⟨hres.1, fun c hc => List.mem_cons_of_mem _ (hres.2.1 c hc), hres.2.2⟩
      · have hstep : popWhile sepLen co cs lenD (d :: rest) total = (d :: rest, total) := by
          simp only [popWhile, if_neg hcond]
        rw [hstep]
        push_neg at hcond
        refine ⟨hw, fun c hc => hc, hcond.1, ?_⟩
        by_cases hc2 : total + lenD + sepLen ≤ cs
        · exact Or.inr hc2
        · left
          have := hcond.2 (by omega)
          omega

theorem newTotal_eq (sep : Txt) (cur' : List Txt) (d : Txt) (t' : Nat)
    (ht : t' = weighted sep.length cur') :
    t' + d.length + (if (cur' ++ [d]).length > 1 then sep.length else 0) =
      weighted sep.length (cur' ++ [d]) := by
  rw [weighted_append_single, ht]
  cases cur' with
  | nil => simp
  | cons x xs => simp; omega

theorem mergeStep_spec (sep : Txt) (cs co : Nat) (d : Txt) (cur : List Txt) (total : Nat)
    (hw : total = weighted sep.length cur) (hcs : total ≤ cs)
    (hcur : ∀ c ∈ cur, c ≠ []) (hdlen : d.length < cs) :
    (∀ out ∈ (mergeStep sep cs co d cur total).1, out.length ≤ cs) ∧
    (∀ c ∈ (mergeStep sep cs co d cur total).2.1, c ∈ cur) ∧
    (mergeStep sep cs co d cur total).2.2 =
      weighted sep.length (mergeStep sep cs co d cur total).2.1 ∧
    (mergeStep sep cs co d cur total).2.2 + d.length +
      (if ((mergeStep sep cs co d cur total).2.1 ++ [d]).length > 1
        then sep.length else 0) ≤ cs := by
  by_cases hguard : total + d.length + (if cur.isEmpty then 0 else sep.length) > cs
  · by_cases hemp : cur.isEmpty = true
    · exfalso
      have hnil : cur = [] := List.isEmpty_iff.mp hemp
      subst hnil
      simp [weighted] at hw
      simp [hw] at hguard
      omega
    · have hstep : mergeStep sep cs co d cur total =
          ((join_docs sep cur).toList, (popWhile sep.length co cs d.length cur total).1,
            (popWhile sep.length co cs d.length cur total).2) := by
        simp only [mergeStep, if_pos hguard]
        rw [if_neg hemp]
      have hpop := popWhile_spec sep.length co cs d.length cur total hw hcur
      rw [hstep]
      dsimp only
      refine ⟨?_, hpop.2.1, hpop.1, ?_⟩
      · intro out hout
        rw [Option.mem_toList, Option.mem_def] at hout
        exact le_trans (join_docs_length_le sep cur out hout) (hw ▸ hcs)
      · rcases hpop.2.2.2 with h0 | hle
        · have hcur' : (popWhile sep.length co cs d.length cur total).1 = [] :=
            eq_nil_of_weighted_eq_zero sep.length _
              (fun c hc => hcur c (hpop.2.1 c hc)) (by rw [← hpop.1]; exact h0)
          rw [hcur', h0]
          simp
          omega
        · have hite : (if ((popWhile sep.length co cs d.length cur total).1 ++ [d]).length > 1
              then sep.length else 0) ≤ sep.length := by split <;> omega
          omega
  · have hstep : mergeStep sep cs co d cur total = ([], cur, total) := by
      simp only [mergeStep, if_neg hguard]
    rw [hstep]
    push_neg at hguard
    refine ⟨by simp, fun c hc => hc, hw, ?_⟩
    cases cur with
    | nil => simp at hguard ⊢; omega
    | cons c0 r0 => simp at hguard ⊢; omega

theorem mergeLoop_bound (sep : Txt) (cs co : Nat) (ds : List Txt) :
    ∀ (cur : List Txt) (total : Nat),
    total = weighted sep.length cur → total ≤ cs → (∀ c ∈ cur, c ≠ []) →
    (∀ d ∈ ds, d ≠ [] ∧ d.length < cs) →
    ∀ out ∈ mergeLoop sep cs co ds cur total, out.length ≤ cs := by
  induction ds with
  | nil =>
      intro cur total hw hcs _ _ out hout
      simp only [mergeLoop] at hout
      rw [Option.mem_toList, Option.mem_def] at hout
      exact le_trans (join_docs_length_le sep cur out hout) (hw ▸ hcs)
  | cons d ds ih =>
      intro cur total hw hcs hcur hds out hout
      simp only [mergeLoop] at hout
      have hspec := mergeStep_spec sep cs co d cur total hw hcs hcur (hds d (by simp)).2
      rcases List.mem_append.mp hout with h1 | h2
      · exact hspec.1 out h1
      · refine ih _ _ (newTotal_eq sep _ d _ hspec.2.2.1) hspec.2.2.2 ?_
          (fun d' hd' => hds d' (List.mem_cons_of_mem _ hd')) out h2
        intro c hc
        rcases List.mem_append.mp hc with h | h
        · exact hcur c (hspec.2.1 c h)
        · simp at h
          subst h
          exact (hds c (by simp)).1

theorem merge_splits_bound (sep : Txt) (cs co : Nat) (splits : List Txt)
    (h : ∀ s ∈ splits, s ≠ [] ∧ s.length < cs) :
    ∀ out ∈ merge_splits sep cs co splits, out.length ≤ cs := by
  unfold merge_splits
  exact mergeLoop_bound sep cs co splits [] 0 (by simp [weighted]) (Nat.zero_le _) (by simp) h

theorem assembleChunks_bound (sep : Txt) (cs co : Nat) (items : List (Txt ⊕ List Txt)) :
    ∀ good : List Txt,
    (∀ s ∈ good, s ≠ [] ∧ s.length < cs) →
    (∀ s : Txt, Sum.inl s ∈ items → s ≠ [] ∧ s.length < cs) →
    (∀ l : List Txt, Sum.inr l ∈ items → ∀ c ∈ l, c.length ≤ cs) →
    ∀ out ∈ assembleChunks sep cs co items good, out.length ≤ cs := by
  induction items with
  | nil =>
      intro good hgood _ _ out hout
      simp only [assembleChunks] at hout
      split at hout
      · simp at hout
      · exact merge_splits_bound sep cs co good hgood out hout
  | cons it rest ih =>
      intro good hgood hinl hinr out hout
      cases it with
      | inl s =>
          simp only [assembleChunks] at hout
          refine ih (good ++ [s]) ?_ (fun s' h => hinl s' (List.mem_cons_of_mem _ h))
            (fun l h => hinr l (List.mem_cons_of_mem _ h)) out hout
          intro s' hs'
          rcases List.mem_append.mp hs' with h | h
          · exact hgood s' h
          · simp at h
            subst h
            exact hinl s' (by simp)
      | inr cks =>
          simp only [assembleChunks] at hout
          rcases List.mem_append.mp hout with h12 | hrec
          · rcases List.mem_append.mp h12 with h1 | h3
            · split at h1
              · simp at h1
              · exact merge_splits_bound sep cs co good hgood out h1
            · exact hinr cks (by simp) out h3
          · exact ih [] (by simp) (fun s' h => hinl s' (List.mem_cons_of_mem _ h))
              (fun l h => hinr l (List.mem_cons_of_mem _ h)) out hrec

theorem splitWithSep_mem_ne_nil (text sep : Txt) : ∀ s ∈ splitWithSep text sep, s ≠ [] := by
  intro s hs hnil
  subst hnil
  unfold splitWithSep at hs
  split at hs
  · exact absurd (List.mem_filter.mp hs).2 (by simp)
  · split at hs
    · simp at hs
    · exact absurd (List.mem_filter.mp hs).2 (by simp)

theorem splitWithSep_nil_sep_len (text : Txt) : ∀ s ∈ splitWithSep text [], s.length = 1 := by
  intro s hs
  unfold splitWithSep at hs
  rw [if_pos rfl] at hs
  have h1 := (List.mem_filter.mp hs).1
  rcases List.mem_map.mp h1 with ⟨c, _, rfl⟩
  rfl

theorem chooseSep_spec (text : Txt) (seps : List Txt) (h : [] ∈ seps) :
    (chooseSep text seps).2.length < seps.length ∧
    ([] ∈ (chooseSep text seps).2 ∨ (chooseSep text seps).2 = []) ∧
    ((chooseSep text seps).2 = [] → (chooseSep text seps).1 = []) := by
  induction seps with
  | nil => simp at h
  | cons s rest ih =>
      by_cases hs : s = []
      · have hred : chooseSep text (s :: rest) = ([], []) := by
          unfold chooseSep
          rw [if_pos hs]
        rw [hred]
        exact ⟨by simp, Or.inr rfl, fun _ => rfl⟩
      · have hrest : [] ∈ rest := by
          rcases List.mem_cons.mp h with h1 | h1
          · exact absurd h1.symm hs
          · exact h1
        by_cases hocc : occursIn s text = true
        · have hred : chooseSep text (s :: rest) = (s, rest) := by
            unfold chooseSep
            rw [if_neg hs, if_pos hocc]
          rw [hred]
          dsimp only
          exact ⟨by simp, Or.inl hrest,
            fun hr => absurd (hr ▸ hrest) (List.not_mem_nil _)⟩
        · cases rest with
          | nil => simp at hrest
          | cons e r =>
              have hred : chooseSep text (s :: e :: r) = chooseSep text (e :: r) := by
                conv_lhs => rw [chooseSep.eq_def]
                dsimp only
                rw [if_neg hs, if_neg hocc]
              rw [hred]
              have := ih hrest
              exact ⟨by have := this.1; simp only [List.length_cons] at *; omega,
                this.2.1, this.2.2⟩

theorem splitTextFuel_bound (cs co : Nat) (hcs : 0 < cs) (fuel : Nat) :
    ∀ (text : Txt) (seps : List Txt), [] ∈ seps → seps.length ≤ fuel →
    ∀ out ∈ splitTextFuel cs co fuel text seps, out.length ≤ cs := by
  induction fuel with
  | zero =>
      intro text seps hmem hlen out hout
      have h1 : seps ≠ [] := List.ne_nil_of_mem hmem
      have h2 : 0 < seps.length := List.length_pos.mpr h1
      omega
  | succ fuel ih =>
      intro text seps hmem hlen out hout
      simp only [splitTextFuel] at hout
      have hcc := chooseSep_spec text seps hmem
      refine assembleChunks_bound [] cs co _ [] (by simp) ?_ ?_ out hout
      · intro s hs
        rcases List.mem_map.mp hs with ⟨s0, hs0, heq⟩
        by_cases hlt : s0.length < cs
        · rw [if_pos hlt] at heq
          injection heq with heq
          subst heq
          exact ⟨splitWithSep_mem_ne_nil _ _ s0 hs0, hlt⟩
        · rw [if_neg hlt] at heq
          exact absurd heq (by simp)
      · intro l hl c hc
        rcases List.mem_map.mp hl with ⟨s0, hs0, heq⟩
        by_cases hlt : s0.length < cs
        · rw [if_pos hlt] at heq
          exact absurd heq (by simp)
        · rw [if_neg hlt] at heq
          injection heq with heq
          subst heq
          by_cases hemp : (chooseSep text seps).2.isEmpty = true
          · have hnil : (chooseSep text seps).2 = [] := List.isEmpty_iff.mp hemp
            have hsep : (chooseSep text seps).1 = [] := hcc.2.2 hnil
            rw [if_pos hemp] at hc
            have hlen1 : s0.length = 1 := splitWithSep_nil_sep_len text s0 (hsep ▸ hs0)
            simp at hc
            subst hc
            omega
          · rw [if_neg hemp] at hc
            have hmem' : [] ∈ (chooseSep text seps).2 := by
              rcases hcc.2.1 with hx | hx
              · exact hx
              · exact absurd hx (by intro hh; rw [hh] at hemp; simp at hemp)
            exact ih s0 _ hmem' (by have := hcc.1; omega) c hc

theorem ragSplitText_bound (text : Txt) : ∀ out ∈ ragSplitText text, out.length ≤ 1000 := by
  intro out hout
  unfold ragSplitText split_text at hout
  exact splitTextFuel_bound 1000 200 (by omega) ragSeparators.length text ragSeparators
    (by simp [ragSeparators]) (Nat.le_refl _) out hout

theorem chooseSep_head_empty (text : Txt) (rest : List Txt) :
    chooseSep text ([] :: rest) = ([], []) := by
  unfold chooseSep
  rw [if_pos rfl]

theorem chooseSep_head_occurs (text s : Txt) (rest : List Txt) (hs : s ≠ [])
    (h : occursIn s text = true) : chooseSep text (s :: rest) = (s, rest) := by
  unfold chooseSep
  rw [if_neg hs, if_pos h]

theorem chooseSep_head_skip (text s e : Txt) (r : List Txt) (hs : s ≠ [])
    (h : occursIn s text = false) :
    chooseSep text (s :: e :: r) = chooseSep text (e :: r) := by
  conv_lhs => rw [chooseSep.eq_def]
  dsimp only
  rw [if_neg hs, if_neg (by simp [h])]

theorem chooseSep_priority (text : Txt) :
    chooseSep text ragSeparators =
      if occursIn ['\n', '\n'] text then (['\n', '\n'], [['\n'], [' '], []])
      else if occursIn ['\n'] text then (['\n'], [[' '], []])
      else if occursIn [' '] text then ([' '], [[]])
      else ([], []) := by
  unfold ragSeparators
  by_cases h1 : occursIn ['\n', '\n'] text = true
  · rw [if_pos h1, chooseSep_head_occurs text _ _ (by simp) h1]
  · rw [if_neg h1, chooseSep_head_skip text _ _ _ (by simp) (by simpa using h1)]
    by_cases h2 : occursIn ['\n'] text = true
    · rw [if_pos h2, chooseSep_head_occurs text _ _ (by simp) h2]
    · rw [if_neg h2, chooseSep_head_skip text _ _ _ (by simp) (by simpa using h2)]
      by_cases h3 : occursIn [' '] text = true
      · rw [if_pos h3, chooseSep_head_occurs text _ _ (by simp) h3]
      · rw [if_neg h3, chooseSep_head_skip text _ _ _ (by simp) (by simpa using h3),
          chooseSep_head_empty]

/-!
Helper lemmas about references and previews.
-/

theorem refOfDoc_id_eq (d : RetrievedDoc) : (refOfDoc d).id = effFilename d := rfl

theorem buildRefsAux_map_id (ds : List RetrievedDoc) :
    ∀ seen, (buildRefsAux ds seen).map (·.id) = dedupFirstAux (ds.map effFilename) seen := by
  induction ds with
  | nil => intro seen; rfl
  | cons d ds ih =>
      intro seen
      simp only [buildRefsAux, List.map_cons, dedupFirstAux]
      by_cases h : effFilename d ∈ seen
      · rw [if_pos h, if_pos h]
        exact ih seen
      · rw [if_neg h, if_neg h, List.map_cons, ih]
        rfl

theorem dedupFirstAux_spec (l : List String) :
    ∀ seen, (dedupFirstAux l seen).Nodup ∧ ∀ x ∈ dedupFirstAux l seen, x ∉ seen := by
  induction l with
  | nil => intro seen; exact ⟨List.nodup_nil, fun x hx => absurd hx (List.not_mem_nil x)⟩
  | cons x xs ih =>
      intro seen
      simp only [dedupFirstAux]
      by_cases h : x ∈ seen
      · rw [if_pos h]
        exact ih seen
      · rw [if_neg h]
        have hx := ih (x :: seen)
        constructor
        · refine List.nodup_cons.mpr ⟨?_, hx.1⟩
          intro hmem
          exact hx.2 x hmem (by simp)
        · intro y hy
          rcases List.mem_cons.mp hy with h1 | h1
          · subst h1; exact h
          · intro hseen
            exact hx.2 y h1 (List.mem_cons_of_mem _ hseen)

theorem buildRefsAux_mem (ds : List RetrievedDoc) :
    ∀ seen r, r ∈ buildRefsAux ds seen → ∃ d ∈ ds, r = refOfDoc d := by
  induction ds with
  | nil => intro seen r hr; exact absurd hr (List.not_mem_nil r)
  | cons d ds ih =>
      intro seen r hr
      simp only [buildRefsAux] at hr
      by_cases h : effFilename d ∈ seen
      · rw [if_pos h] at hr
        rcases ih _ r hr with ⟨d', hd', heq⟩
        exact ⟨d', List.mem_cons_of_mem _ hd', heq⟩
      · rw [if_neg h] at hr
        rcases List.mem_cons.mp hr with h1 | h1
        · exact ⟨d, by simp, h1⟩
        · rcases ih _ r h1 with ⟨d', hd', heq⟩
          exact ⟨d', List.mem_cons_of_mem _ hd', heq⟩

theorem mkPreview_length_le (content : Txt) : (mkPreview content).length ≤ 203 := by
  unfold mkPreview
  split
  · simp only [List.length_append, List.length_take, List.length_cons, List.length_nil]
    omega
  · omega

theorem mkPreview_short (content : Txt) (h : content.length ≤ 200) :
    mkPreview content = content := by
  unfold mkPreview
  rw [if_neg (by omega)]

theorem mkPreview_long (content : Txt) (h : content.length > 200) :
    mkPreview content = content.take 200 ++ ['.', '.', '.'] := by
  unfold mkPreview
  rw [if_pos h]

/-!
Helper lemmas about the query pipeline and the document store.
-/

theorem queryRetrieve_refs (env : QueryEnv) (res : QueryResult)
    (h : queryRetrieve env = Except.ok res) :
    res.references = [] ∨ ∃ docs, env.search = SearchOutcome.ok docs ∧
      res.references = buildReferences docs := by
  unfold queryRetrieve at h
  cases hs : env.search with
  | err msg =>
      rw [hs] at h
      dsimp only at h
      split at h
      · injection h with h
        left
        rw [← h]
      · exact absurd h (by simp)
  | ok docs =>
      rw [hs] at h
      dsimp only at h
      split at h
      · injection h with h
        left
        rw [← h]
      · injection h with h
        right
        exact ⟨docs, rfl, by rw [← h]⟩

theorem writeFile_mem (disk : List (String × Txt)) (fname : String) (content : Txt) :
    (fname, content) ∈ writeFile disk fname content := by
  unfold writeFile
  split
  · next hany =>
      rcases List.any_eq_true.mp hany with ⟨e, he, heq⟩
      exact List.mem_map.mpr ⟨e, he, by rw [if_pos heq]⟩
  · exact List.mem_append.mpr (Or.inr (by simp))

theorem writeFile_length_of_mem (disk : List (String × Txt)) (fname : String) (content : Txt)
    (h : fname ∈ disk.map Prod.fst) :
    (writeFile disk fname content).length = disk.length := by
  rcases List.mem_map.mp h with ⟨e, he, heq⟩
  unfold writeFile
  rw [if_pos (List.any_eq_true.mpr ⟨e, he, by simp [heq]⟩), List.length_map]

theorem writeFile_unique (disk : List (String × Txt)) (fname : String) (content : Txt) :
    ∀ e ∈ writeFile disk fname content, e.1 = fname → e = (fname, content) := by
  intro e he hfn
  unfold writeFile at he
  split at he
  · rcases List.mem_map.mp he with ⟨a, _, heq⟩
    by_cases hb : (a.1 == fname) = true
    · rw [if_pos hb] at heq
      exact heq.symm
    · rw [if_neg hb] at heq
      subst heq
      exact absurd (beq_iff_eq.mpr hfn) hb
  · next hany =>
      rcases List.mem_append.mp he with h1 | h2
      · exfalso
        apply hany
        exact List.any_eq_true.mpr ⟨e, h1, by simp [hfn]⟩
      · simpa using h2

/-!
The claims.
-/

/-- C2: for every question and every `k`, a query against a nonexistent
collection (not listed by `get_collections`, or the retrieval raising a
missing-collection error while the listing itself failed), and a query whose
similarity search returns zero results, terminate normally (`Except.ok`, never
an exception): they return a fixed non-empty apologetic answer, an empty
references list and `context_used = 0`. -/
theorem C2_query_degenerate_cases (question : String) (k : Nat) (env : QueryEnv) :
    ((∃ names, env.collections = some names ∧ collection_name ∉ names) →
      rag_query question k env = Except.ok ⟨noDocsAnswer, [], 0⟩) ∧
    ((env.collections = none ∨
        ∃ names, env.collections = some names ∧ collection_name ∈ names) →
      env.search = SearchOutcome.ok [] →
      rag_query question k env = Except.ok ⟨noRelevantAnswer, [], 0⟩) ∧
    ((env.collections = none ∧ ∃ msg, env.search = SearchOutcome.err msg ∧
        errIndicatesMissing msg = true) →
      rag_query question k env = Except.ok ⟨noDocsAnswer, [], 0⟩) ∧
    noDocsAnswer ≠ "" ∧ noRelevantAnswer ≠ "" := by
  refine ⟨?_, ?_, ?_, by decide, by decide⟩
  · rintro ⟨names, hc, hn⟩
    unfold rag_query
    rw [hc]
    dsimp only
    rw [if_neg hn]
  · rintro (hc | ⟨names, hc, hn⟩) hs
    · unfold rag_query
      rw [hc]
      dsimp only
      unfold queryRetrieve
      rw [hs]
      dsimp only
      rw [if_pos (by simp)]
    · unfold rag_query
      rw [hc]
      dsimp only
      rw [if_pos hn]
      unfold queryRetrieve
      rw [hs]
      dsimp only
      rw [if_pos (by simp)]
  · rintro ⟨hc, msg, hs, hm⟩
    unfold rag_query
    rw [hc]
    dsimp only
    unfold queryRetrieve
    rw [hs]
    dsimp only
    rw [if_pos hm]

/-- C2 witness: the degenerate cases at concrete inputs. -/
theorem C2_query_degenerate_cases_witness :
    rag_query "q" 4 ⟨some [], SearchOutcome.ok [], "ans"⟩ =
      Except.ok ⟨noDocsAnswer, [], 0⟩ ∧
    rag_query "q" 4 ⟨some [collection_name], SearchOutcome.ok [], "ans"⟩ =
      Except.ok ⟨noRelevantAnswer, [], 0⟩ ∧
    rag_query "q" 4 ⟨none, SearchOutcome.err "Collection not found", "ans"⟩ =
      Except.ok ⟨noDocsAnswer, [], 0⟩ :=
  ⟨(C2_query_degenerate_cases "q" 4 _).1 ⟨[], rfl, by simp⟩,
   (C2_query_degenerate_cases "q" 4 _).2.1 (Or.inr ⟨[collection_name], rfl, by simp⟩) rfl,
   (C2_query_degenerate_cases "q" 4 _).2.2.1 ⟨rfl, "Collection not found", rfl, by decide⟩⟩

/-- C9: whenever the similarity search returns a non-empty list of chunks, the
query response is built from the LLM answer, the de-duplicated references, and
`context_used` equal to the number of retrieved chunks, before reference
de-duplication and regardless of how many distinct filenames they span. -/
theorem C9_context_used_eq_retrieved (question : String) (k : Nat) (env : QueryEnv)
    (docs : List RetrievedDoc)
    (hpass : env.collections = none ∨
      ∃ names, env.collections = some names ∧ collection_name ∈ names)
    (hs : env.search = SearchOutcome.ok docs) (hne : docs ≠ []) :
    rag_query question k env =
      Except.ok ⟨env.llmAnswer, buildReferences docs, docs.length⟩ := by
  have hemp : docs.isEmpty = false := by
    cases docs with
    | nil => exact absurd rfl hne
    | cons d ds => rfl
  rcases hpass with hc | ⟨names, hc, hn⟩
  · unfold rag_query
    rw [hc]
    dsimp only
    unfold queryRetrieve
    rw [hs]
    dsimp only
    rw [if_neg (by simp [hemp])]
  · unfold rag_query
    rw [hc]
    dsimp only
    rw [if_pos hn]
    unfold queryRetrieve
    rw [hs]
    dsimp only
    rw [if_neg (by simp [hemp])]

/-- C9 witness: two retrieved chunks from the same file yield one reference but
`context_used = 2`. -/
theorem C9_context_used_eq_retrieved_witness :
    rag_query "q" 2 ⟨none, SearchOutcome.ok
        [⟨"alpha".toList, some "docs/a.txt", some "a.txt", none⟩,
         ⟨"beta".toList, some "docs/a.txt", some "a.txt", none⟩], "ans"⟩ =
      Except.ok ⟨"ans", buildReferences
        [⟨"alpha".toList, some "docs/a.txt", some "a.txt", none⟩,
         ⟨"beta".toList, some "docs/a.txt", some "a.txt", none⟩], 2⟩ ∧
    (buildReferences
        [⟨"alpha".toList, some "docs/a.txt", some "a.txt", none⟩,
         ⟨"beta".toList, some "docs/a.txt", some "a.txt", none⟩]).length = 1 :=
  ⟨C9_context_used_eq_retrieved "q" 2 _ _ (Or.inl rfl) rfl (by simp), by decide⟩

/-- C3: the reference list of a query result contains at most one entry per
distinct filename, in the order the filenames first occur in the retrieval;
each entry carries identifier = filename, the source path, a page number
defaulting to 0, and a preview of the chunk text. -/
theorem C3_references_dedup :
    (∀ docs : List RetrievedDoc, ((buildReferences docs).map (·.filename)).Nodup) ∧
    (∀ docs : List RetrievedDoc,
      (buildReferences docs).map (·.id) = dedupFirst (docs.map effFilename)) ∧
    (∀ docs : List RetrievedDoc, ∀ r ∈ buildReferences docs,
      r.id = r.filename ∧ ∃ d ∈ docs, r.filename = effFilename d ∧ r.source = effSource d ∧
        r.page = d.page.getD 0 ∧ r.preview = mkPreview d.page_content) ∧
    (∀ (env : QueryEnv) (question : String) (k : Nat) (res : QueryResult),
      rag_query question k env = Except.ok res →
      res.references = [] ∨ ∃ docs, env.search = SearchOutcome.ok docs ∧
        res.references = buildReferences docs) := by
  refine ⟨?_, ?_, ?_, ?_⟩
  · intro docs
    have hmap : (buildReferences docs).map (·.filename) = (buildReferences docs).map (·.id) := by
      apply List.map_congr_left
      intro r hr
      rcases buildRefsAux_mem docs [] r hr with ⟨d, _, rfl⟩
      rfl
    rw [hmap]
    unfold buildReferences
    rw [buildRefsAux_map_id]
    exact (dedupFirstAux_spec _ []).1
  · intro docs
    exact buildRefsAux_map_id docs []
  · intro docs r hr
    rcases buildRefsAux_mem docs [] r hr with ⟨d, hd, rfl⟩
    exact ⟨rfl, d, hd, rfl, rfl, rfl, rfl⟩
  · intro env question k res h
    unfold rag_query at h
    cases hc : env.collections with
    | none =>
        rw [hc] at h
        exact queryRetrieve_refs env res h
    | some names =>
        rw [hc] at h
        dsimp only at h
        split at h
        · exact queryRetrieve_refs env res h
        · injection h with h
          left
          rw [← h]

/-- C3 witness: three chunks over two files produce two references in
first-occurrence order. -/
theorem C3_references_dedup_witness :
    ((buildReferences
        [⟨"alpha".toList, some "docs/a.txt", some "a.txt", none⟩,
         ⟨"beta".toList, some "docs/b.txt", some "b.txt", some 3⟩,
         ⟨"gamma".toList, some "docs/a.txt", some "a.txt", none⟩]).map (·.filename)).Nodup ∧
    (buildReferences
        [⟨"alpha".toList, some "docs/a.txt", some "a.txt", none⟩,
         ⟨"beta".toList, some "docs/b.txt", some "b.txt", some 3⟩,
         ⟨"gamma".toList, some "docs/a.txt", some "a.txt", none⟩]).map (·.id) =
      dedupFirst (["a.txt", "b.txt", "a.txt"]) := by
  constructor
  · exact C3_references_dedup.1 _
  · have h := C3_references_dedup.2.1
      [⟨"alpha".toList, some "docs/a.txt", some "a.txt", none⟩,
       ⟨"beta".toList, some "docs/b.txt", some "b.txt", some 3⟩,
       ⟨"gamma".toList, some "docs/a.txt", some "a.txt", none⟩]
    rw [h]
    rfl

/-- C7: every reference preview equals the chunk text when that text has at
most 200 characters, equals the first 200 characters followed by the ellipsis
marker otherwise, and is therefore never longer than 203 characters. -/
theorem C7_preview_truncation (docs : List RetrievedDoc) :
    ∀ r ∈ buildReferences docs, r.preview.length ≤ 203 ∧
      ∃ d ∈ docs, (d.page_content.length ≤ 200 → r.preview = d.page_content) ∧
        (d.page_content.length > 200 →
          r.preview = d.page_content.take 200 ++ ['.', '.', '.']) := by
  intro r hr
  rcases buildRefsAux_mem docs [] r hr with ⟨d, hd, rfl⟩
  exact ⟨mkPreview_length_le _, d, hd, fun h => mkPreview_short _ h,
    fun h => mkPreview_long _ h⟩

/-- C7 witness: the preview of a short chunk is the chunk itself. -/
theorem C7_preview_truncation_witness :
    (refOfDoc ⟨"alpha".toList, some "docs/a.txt", some "a.txt", none⟩).preview.length ≤ 203 ∧
    ∃ d ∈ [(⟨"alpha".toList, some "docs/a.txt", some "a.txt", none⟩ : RetrievedDoc)],
      (d.page_content.length ≤ 200 →
        (refOfDoc ⟨"alpha".toList, some "docs/a.txt", some "a.txt", none⟩).preview =
          d.page_content) ∧
      (d.page_content.length > 200 →
        (refOfDoc ⟨"alpha".toList, some "docs/a.txt", some "a.txt", none⟩).preview =
          d.page_content.take 200 ++ ['.', '.', '.']) :=
  C7_preview_truncation [⟨"alpha".toList, some "docs/a.txt", some "a.txt", none⟩]
    (refOfDoc ⟨"alpha".toList, some "docs/a.txt", some "a.txt", none⟩) (by decide)

/-- C5: an upload is rejected when the document store already holds 20 or more
documents, and in that case the state is returned unchanged (no file written,
no index mutation); an upload below the cap writes the file, overwriting any
existing entry of the same name without growing the store. -/
theorem C5_upload_cap (st : SysState) (fname : String) (content : Txt)
    (loaded : List RawDoc) :
    (st.disk.length ≥ 20 →
      upload_file st fname content loaded = (st, UploadOutcome.rejected)) ∧
    (st.disk.length < 20 →
      (upload_file st fname content loaded).1.disk = writeFile st.disk fname content ∧
      (fname, content) ∈ (upload_file st fname content loaded).1.disk ∧
      (fname ∈ st.disk.map Prod.fst →
        (upload_file st fname content loaded).1.disk.length = st.disk.length ∧
        ∀ e ∈ (upload_file st fname content loaded).1.disk, e.1 = fname →
          e = (fname, content))) := by
  constructor
  · intro h
    unfold upload_file get_document_list
    rw [if_pos h]
  · intro h
    have hred : upload_file st fname content loaded =
        (⟨writeFile st.disk fname content,
          (load_and_index_documents st.index (some (documents_dir ++ "/" ++ fname))
            loaded).index⟩,
         UploadOutcome.accepted
           (load_and_index_documents st.index (some (documents_dir ++ "/" ++ fname))
             loaded).chunk_count) := by
      unfold upload_file get_document_list
      rw [if_neg (by omega)]
    rw [hred]
    exact ⟨rfl, writeFile_mem st.disk fname content,
      fun hmem => ⟨writeFile_length_of_mem st.disk fname content hmem,
        writeFile_unique st.disk fname content⟩⟩

/-- C5 witness: a 21st upload is rejected with the state unchanged, and a
below-cap re-upload overwrites the stored entry of the same name. -/
theorem C5_upload_cap_witness :
    upload_file ⟨(List.range 20).map (fun i => (toString i, [])), []⟩ "a.txt" ['x'] [] =
      (⟨(List.range 20).map (fun i => (toString i, [])), []⟩, UploadOutcome.rejected) ∧
    ("a.txt", ['x']) ∈ (upload_file ⟨[("a.txt", ['o'])], []⟩ "a.txt" ['x'] []).1.disk :=
  ⟨(C5_upload_cap ⟨(List.range 20).map (fun i => (toString i, [])), []⟩ "a.txt" ['x'] []).1
      (by decide),
   ((C5_upload_cap ⟨[("a.txt", ['o'])], []⟩ "a.txt" ['x'] []).2 (by decide)).2.1⟩

/-- C10: the upload cap check compares only the number of stored documents
against 20 and never inspects the uploaded filename: the accept/reject decision
is identical for any two uploads against the same state, and with 20 documents
present an upload is rejected even when its filename matches an existing
document (so overwriting would not have grown the store). -/
theorem C10_cap_check_ignores_filename (st : SysState) :
    (∀ (f1 : String) (c1 : Txt) (l1 : List RawDoc) (f2 : String) (c2 : Txt)
        (l2 : List RawDoc),
      ((upload_file st f1 c1 l1).2 = UploadOutcome.rejected ↔
        (upload_file st f2 c2 l2).2 = UploadOutcome.rejected)) ∧
    (∀ (fname : String) (content : Txt) (loaded : List RawDoc),
      st.disk.length ≥ 20 → fname ∈ st.disk.map Prod.fst →
      upload_file st fname content loaded = (st, UploadOutcome.rejected)) := by
  constructor
  · intro f1 c1 l1 f2 c2 l2
    unfold upload_file get_document_list
    by_cases h : st.disk.length ≥ 20
    · rw [if_pos h, if_pos h]
    · rw [if_neg h, if_neg h]
      constructor <;> intro hx <;> exact absurd hx (by simp)
  · intro fname content loaded h _
    unfold upload_file get_document_list
    rw [if_pos h]

/-- C10 witness: with 20 stored files, re-uploading the existing name "0" is
still rejected. -/
theorem C10_cap_check_ignores_filename_witness :
    upload_file ⟨(List.range 20).map (fun i => (toString i, [])), []⟩ "0" ['x'] [] =
      (⟨(List.range 20).map (fun i => (toString i, [])), []⟩, UploadOutcome.rejected) :=
  (C10_cap_check_ignores_filename ⟨(List.range 20).map (fun i => (toString i, [])), []⟩).2
    "0" ['x'] [] (by decide) (by decide)

/-- C6: `delete_document` removes the file from disk whether or not the vector
delete succeeds (absence already being tolerated by the filter), removes all
points carrying the filename exactly when the vector delete succeeds, reports
failure exactly when the vector-store deletion step throws, and deleting an
already-deleted filename again is a no-op success. -/
theorem C6_delete_document (st : SysState) (ok : Bool) (fname : String) :
    ((delete_document st ok fname).2 = ok) ∧
    ((delete_document st ok fname).1.disk = st.disk.filter (fun e => e.1 != fname)) ∧
    (ok = true →
      (delete_document st ok fname).1.index = deleteByFilename st.index fname ∧
      (∀ e ∈ (delete_document st ok fname).1.disk, e.1 ≠ fname) ∧
      (∀ p ∈ (delete_document st ok fname).1.index, p.filename ≠ fname)) ∧
    (ok = false → (delete_document st ok fname).1.index = st.index) ∧
    (delete_document (delete_document st true fname).1 true fname =
      ((delete_document st true fname).1, true)) := by
  have hfilt : ∀ (l : List (String × Txt)),
      (l.filter (fun e => e.1 != fname)).filter (fun e => e.1 != fname) =
        l.filter (fun e => e.1 != fname) := by
    intro l
    rw [List.filter_filter]
    simp only [Bool.and_self]
  have hfilt2 : ∀ (l : List VPoint),
      deleteByFilename (deleteByFilename l fname) fname = deleteByFilename l fname := by
    intro l
    unfold deleteByFilename
    rw [List.filter_filter]
    simp only [Bool.and_self]
  refine ⟨?_, ?_, ?_, ?_, ?_⟩
  · cases ok <;> rfl
  · cases ok <;> rfl
  · intro hok
    subst hok
    refine ⟨rfl, ?_, ?_⟩
    · intro e he
      have := (List.mem_filter.mp he).2
      simpa using this
    · intro p hp
      have := (List.mem_filter.mp hp).2
      simpa using this
  · intro hok
    subst hok
    rfl
  · show delete_document ⟨st.disk.filter (fun e => e.1 != fname),
      deleteByFilename st.index fname⟩ true fname = _
    unfold delete_document
    rw [if_pos rfl]
    dsimp only
    rw [hfilt st.disk, hfilt2 st.index]
    rfl

/-- C6 witness: deleting an existing document succeeds, removes both the file
and its points, and repeating the delete is a no-op success. -/
theorem C6_delete_document_witness :
    (delete_document ⟨[("a.txt", ['x'])], [⟨"a.txt", "docs/a.txt", none, ['x']⟩]⟩
        true "a.txt").2 = true ∧
    (delete_document (delete_document ⟨[("a.txt", ['x'])],
        [⟨"a.txt", "docs/a.txt", none, ['x']⟩]⟩ true "a.txt").1 true "a.txt" =
      ((delete_document ⟨[("a.txt", ['x'])],
        [⟨"a.txt", "docs/a.txt", none, ['x']⟩]⟩ true "a.txt").1, true)) ∧
    (delete_document ⟨[("b.txt", ['y'])], []⟩ false "a.txt").2 = false :=
  ⟨(C6_delete_document ⟨[("a.txt", ['x'])], [⟨"a.txt", "docs/a.txt", none, ['x']⟩]⟩
      true "a.txt").1,
   (C6_delete_document ⟨[("a.txt", ['x'])], [⟨"a.txt", "docs/a.txt", none, ['x']⟩]⟩
      true "a.txt").2.2.2.2,
   (C6_delete_document ⟨[("b.txt", ['y'])], []⟩ false "a.txt").1⟩

/-- C8 counterexample: in `_initialize_vector_store`, when the collection is
absent and the test-embedding call throws (`embed = none`), the collection is
created with the hardcoded fallback dimension 768 (rag_service.py 67-70) —
not a dimension obtained from a real embedding call, contradicting the claim
that the dimension is "never a hardcoded constant". -/
theorem C8_counterexample :
    initialize_vector_store ⟨some [], none, none⟩ = InitAction.created 768 ∧
    (⟨some [], none, none⟩ : InitEnv).embed = none := by
  constructor
  · rfl
  · rfl

/-- C8 amended: when the collection must be created, the dimension is taken
from the test embedding when that call succeeds, and falls back to the
hardcoded 768 in the startup path when it throws; in the indexing-recovery
path there is no fallback (an embedding failure propagates), and a creation
failure whose message contains "already exists" or "duplicate" is treated as
success. -/
theorem C8_amended_bootstrap :
    (∀ (names : List String) (v : List Int), collection_name ∉ names →
      initialize_vector_store ⟨some names, some v, none⟩ = InitAction.created v.length) ∧
    (∀ names : List String, collection_name ∉ names →
      initialize_vector_store ⟨some names, none, none⟩ = InitAction.created 768) ∧
    (∀ v : List Int, recoveryCreateDim (Except.ok v) none = Except.ok v.length) ∧
    (∀ (v : List Int) (msg : String),
      (strContains (pyLower msg) "already exists" ||
        strContains (pyLower msg) "duplicate") = true →
      recoveryCreateDim (Except.ok v) (some msg) = Except.ok v.length) ∧
    (∀ (v : List Int) (msg : String),
      (strContains (pyLower msg) "already exists" ||
        strContains (pyLower msg) "duplicate") = false →
      recoveryCreateDim (Except.ok v) (some msg) = Except.error msg) ∧
    (∀ (e : String) (cerr : Option String),
      recoveryCreateDim (Except.error e) cerr = Except.error e) := by
  refine ⟨?_, ?_, fun v => rfl, ?_, ?_, fun e cerr => rfl⟩
  · intro names v hn
    unfold initialize_vector_store
    dsimp only
    rw [if_neg hn]
    rfl
  · intro names hn
    unfold initialize_vector_store
    dsimp only
    rw [if_neg hn]
    rfl
  · intro v msg h
    unfold recoveryCreateDim
    dsimp only
    rw [if_pos h]
  · intro v msg h
    unfold recoveryCreateDim
    dsimp only
    rw [if_neg (by simp [h])]

/-- C8 amended witness: a successful test embedding of length 3 creates the
collection with dimension 3, and an "already exists" creation failure in the
recovery path is treated as success. -/
theorem C8_amended_bootstrap_witness :
    initialize_vector_store ⟨some ["other"], some [1, 2, 3], none⟩ =
      InitAction.created 3 ∧
    recoveryCreateDim (Except.ok [(1 : Int), 2, 3])
        (some "Collection already exists") = Except.ok 3 :=
  ⟨C8_amended_bootstrap.1 ["other"] [1, 2, 3] (by decide),
   C8_amended_bootstrap.2.2.2.1 [(1 : Int), 2, 3] "Collection already exists" (by decide)⟩

/-- C1 counterexample: re-indexing via the directory variant
(`file_path = None`, as the startup path in `main.py` does) issues no delete:
an older point stored under `a.txt` survives and coexists in the index with
the freshly inserted points for `a.txt`, and the operation trace contains no
delete at all — refuting the claim for this (re)indexing path. -/
theorem C1_counterexample :
    (⟨"a.txt", "docs/a.txt", none, "old".toList⟩ : VPoint) ∈
      (load_and_index_documents [⟨"a.txt", "docs/a.txt", none, "old".toList⟩] none
        [⟨"new".toList, some "docs/a.txt", none⟩]).index ∧
    (∃ q ∈ (load_and_index_documents [⟨"a.txt", "docs/a.txt", none, "old".toList⟩] none
        [⟨"new".toList, some "docs/a.txt", none⟩]).index,
      q.filename = "a.txt" ∧ q.content = "new".toList) ∧
    (∀ op ∈ (load_and_index_documents [⟨"a.txt", "docs/a.txt", none, "old".toList⟩] none
        [⟨"new".toList, some "docs/a.txt", none⟩]).ops,
      ∀ fn : String, op ≠ IndexOp.deletePoints fn) := by
  refine ⟨by decide,
    ⟨⟨"a.txt", "docs/a.txt", none, "new".toList⟩, by decide, rfl, rfl⟩, ?_⟩
  intro op hop fn
  have hops : (load_and_index_documents [⟨"a.txt", "docs/a.txt", none, "old".toList⟩] none
      [⟨"new".toList, some "docs/a.txt", none⟩]).ops =
      [IndexOp.addPoints [⟨"a.txt", "docs/a.txt", none, "new".toList⟩]] := by decide
  rw [hops] at hop
  rcases List.mem_singleton.mp hop with rfl
  intro h
  exact absurd h (by simp)

/-- C1 amended: on the single-file (re)index path (`file_path` given), whenever
at least one chunk is produced, the filtered delete for that filename is issued
unconditionally (also when the index holds nothing for it) and strictly before
the insertion, and every point carrying that filename in the resulting index is
one of the freshly inserted points; the directory-wide path and the zero-chunk
case issue no delete. -/
theorem C1_amended_single_file_versioning (idx : List VPoint) (p : String)
    (raw : List RawDoc) (h : indexedChunks (some p) raw ≠ []) :
    (load_and_index_documents idx (some p) raw).ops =
      [IndexOp.deletePoints (basename p),
       IndexOp.addPoints (indexedPoints (some p) raw)] ∧
    (load_and_index_documents idx (some p) raw).index =
      deleteByFilename idx (basename p) ++ indexedPoints (some p) raw ∧
    (∀ q ∈ (load_and_index_documents idx (some p) raw).index,
      q.filename = basename p → q ∈ indexedPoints (some p) raw) := by
  have hemp : (indexedChunks (some p) raw).isEmpty = false := by
    cases hc : indexedChunks (some p) raw with
    | nil => exact absurd hc h
    | cons a as => rfl
  have hred : load_and_index_documents idx (some p) raw =
      ⟨deleteByFilename idx (basename p) ++ indexedPoints (some p) raw,
       [IndexOp.deletePoints (basename p),
        IndexOp.addPoints (indexedPoints (some p) raw)],
       raw.length, (indexedChunks (some p) raw).length,
       dedupFirst ((indexedChunks (some p) raw).map (·.filename))⟩ := by
    unfold load_and_index_documents
    rw [hemp]
    rfl
  rw [hred]
  refine ⟨rfl, rfl, ?_⟩
  intro q hq hfn
  rcases List.mem_append.mp hq with h1 | h2
  · exfalso
    have := (List.mem_filter.mp h1).2
    rw [hfn] at this
    simp at this
  · exact h2

/-- C1 amended witness: re-indexing `docs/a.txt` deletes the stale point before
inserting the new one. -/
theorem C1_amended_single_file_versioning_witness :
    (load_and_index_documents [⟨"a.txt", "docs/a.txt", none, "old".toList⟩]
        (some "docs/a.txt") [⟨"new".toList, some "docs/a.txt", none⟩]).ops =
      [IndexOp.deletePoints (basename "docs/a.txt"),
       IndexOp.addPoints (indexedPoints (some "docs/a.txt")
         [⟨"new".toList, some "docs/a.txt", none⟩])] ∧
    (load_and_index_documents [⟨"a.txt", "docs/a.txt", none, "old".toList⟩]
        (some "docs/a.txt") [⟨"new".toList, some "docs/a.txt", none⟩]).index =
      deleteByFilename [⟨"a.txt", "docs/a.txt", none, "old".toList⟩]
          (basename "docs/a.txt") ++
        indexedPoints (some "docs/a.txt") [⟨"new".toList, some "docs/a.txt", none⟩] ∧
    (∀ q ∈ (load_and_index_documents [⟨"a.txt", "docs/a.txt", none, "old".toList⟩]
        (some "docs/a.txt") [⟨"new".toList, some "docs/a.txt", none⟩]).index,
      q.filename = basename "docs/a.txt" →
        q ∈ indexedPoints (some "docs/a.txt") [⟨"new".toList, some "docs/a.txt", none⟩]) :=
  C1_amended_single_file_versioning [⟨"a.txt", "docs/a.txt", none, "old".toList⟩]
    "docs/a.txt" [⟨"new".toList, some "docs/a.txt", none⟩] (by decide)

/-- C4: the chunking policy of the splitter as instantiated
(`chunk_size=1000`, `chunk_overlap=200`, separators `"\n\n"`, `"\n"`, `" "`,
`""`): (1) every produced chunk is at most 1000 characters; (2) the split
separator is chosen by priority — paragraph boundary first, then line
boundary, then space, then any character — taking the first separator that
occurs in the text (over-long fragments are re-split with the remaining,
smaller separators); (3) the window retained by the merge loop after emitting
a chunk — the content shared with the following chunk — never exceeds the
200-character overlap budget. -/
theorem C4_chunking_policy :
    (∀ text : Txt, ∀ chunk ∈ ragSplitText text, chunk.length ≤ 1000) ∧
    (∀ text : Txt,
      chooseSep text ragSeparators =
        if occursIn ['\n', '\n'] text then (['\n', '\n'], [['\n'], [' '], []])
        else if occursIn ['\n'] text then (['\n'], [[' '], []])
        else if occursIn [' '] text then ([' '], [[]])
        else ([], [])) ∧
    (∀ (lenD : Nat) (cur : List Txt) (total : Nat),
      total = weighted 0 cur → (∀ c ∈ cur, c ≠ []) →
      (joinSep [] (popWhile 0 200 1000 lenD cur total).1).length ≤ 200) := by
  refine ⟨ragSplitText_bound, chooseSep_priority, ?_⟩
  intro lenD cur total hw hne
  have h := popWhile_spec 0 200 1000 lenD cur total hw hne
  rw [joinSep_length]
  simp only [List.length_nil]
  rw [← h.1]
  exact h.2.2.1

/-- C4 witness: a concrete chunk obeys the bound, the separator priority picks
the space for a spaced text, and a concrete merge window stays within the
overlap budget. -/
theorem C4_chunking_policy_witness :
    ['a', 'b'].length ≤ 1000 ∧
    chooseSep "x y".toList ragSeparators = ([' '], [[]]) ∧
    (joinSep [] (popWhile 0 200 1000 5 [['a'], ['b']]
      (weighted 0 [['a'], ['b']])).1).length ≤ 200 := by
  refine ⟨C4_chunking_policy.1 "ab".toList ['a', 'b'] (by decide), ?_,
    C4_chunking_policy.2.2 5 [['a'], ['b']] (weighted 0 [['a'], ['b']]) rfl (by decide)⟩
  rw [C4_chunking_policy.2.1 "x y".toList]
  decide
